import Mathlib

/-!
Verification of the Queries predicate model and statement builders of
`gildas/go-sql` (package `sql`).

Shallow embedding notes:

* Go `interface{}` values appearing in a `Query` are modelled by the
  inductive type `QueryValue` (an operator, a string, or an integer);
  the Go type assertion `v.(QueryOperator)` is `asOp`.
* The Go map `Queries map[string]Query` is modelled as an association
  list `List (String × Query)` with first-match lookup (`Queries.find`)
  and in-place replacement (`Queries.insert`).  Go map iteration order
  is unspecified; the list fixes one iteration order (insertion order).
  Claims proved below are either order independent (counts, lookups) or
  are additionally evaluated on the reversed list.
* Go panics (out-of-range slice index such as `values[0]` or
  `values[1]`) are modelled by `Option`: a function returns `none`
  exactly where the Go code would panic.
* Go `strings.TrimPrefix`, `strings.HasPrefix` and `strings.Join` are
  modelled character-wise by `trimPrefix`, `hasPrefix`, `joinStrings`.
-/

/-- `QueryOperator` (src/query-operator.go): the operator used to build
a clause, with its SQL token and its arity. -/
structure QueryOperator where
  Operator : String
  Arity : Nat
deriving DecidableEq, Repr

/-- src/query-operator.go: `QueryBetween = QueryOperator{"BETWEEN", 3}`. -/
def QueryBetween : QueryOperator := ⟨"BETWEEN", 3⟩

/-- src/query-operator.go: `QueryDifferent = QueryOperator{"<>", 2}`. -/
def QueryDifferent : QueryOperator := ⟨"<>", 2⟩

/-- src/query-operator.go: `QueryEqual = QueryOperator{"=", 2}`. -/
def QueryEqual : QueryOperator := ⟨"=", 2⟩

/-- src/query-operator.go: `QueryGreater = QueryOperator{">", 2}`. -/
def QueryGreater : QueryOperator := ⟨">", 2⟩

/-- src/query-operator.go: `QueryGreaterOrEqual = QueryOperator{">=", 2}`. -/
def QueryGreaterOrEqual : QueryOperator := ⟨">=", 2⟩

/-- src/query-operator.go: `QueryIn = QueryOperator{"IN", math.MaxInt32}`. -/
def QueryIn : QueryOperator := ⟨"IN", 2147483647⟩

/-- src/query-operator.go: `QueryLesser = QueryOperator{"<", 2}`. -/
def QueryLesser : QueryOperator := ⟨"<", 2⟩

/-- src/query-operator.go: `QueryLesserOrEqual = QueryOperator{"<=", 2}`. -/
def QueryLesserOrEqual : QueryOperator := ⟨"<=", 2⟩

/-- src/query-operator.go: `QueryLike = QueryOperator{"LIKE", 2}`. -/
def QueryLike : QueryOperator := ⟨"LIKE", 2⟩

/-- Modelled from the spec: the `SET` pseudo-operator (arity 2) marking
assignment intent.  `QuerySet` is referenced throughout the sources
(src/db.go, src/unnamed/part_003, src/structured.go) but its defining
declaration is not among the repository files provided; the spec
describes it as "A special `SET` pseudo-operator (arity 2)".  Only its
`Operator` string is ever consulted by the code. -/
def QuerySet : QueryOperator := ⟨"SET", 2⟩

/-- The operator catalog of src/query-operator.go. -/
def opCatalog : List QueryOperator :=
  [QueryBetween, QueryDifferent, QueryEqual, QueryGreater,
   QueryGreaterOrEqual, QueryIn, QueryLesser, QueryLesserOrEqual, QueryLike]

/-- A Go `interface{}` value stored in a `Query`. -/
inductive QueryValue where
  | op : QueryOperator → QueryValue
  | str : String → QueryValue
  | int : Int → QueryValue
deriving DecidableEq, Repr

/-- The Go type assertion `v.(QueryOperator)`. -/
def asOp : QueryValue → Option QueryOperator
  | .op o => some o
  | _ => none

/-- `Query` (src/db.go): a query in a statement where-clause,
`[]interface{}`. -/
abbrev Query := List QueryValue

/-- `Queries` (src/db.go): `map[string]Query`, modelled as an
association list. -/
abbrev Queries := List (String × Query)

/-- Map lookup `queries[key]` (first match). -/
def Queries.find : Queries → String → Option Query
  | [], _ => none
  | kv :: rest, k => if kv.1 = k then some kv.2 else Queries.find rest k

/-- Map write `queries[key] = v`: replace the entry in place, or append
a fresh one. -/
def Queries.insert : Queries → String → Query → Queries
  | [], k, v => [(k, v)]
  | kv :: rest, k, v =>
    if kv.1 = k then (k, v) :: rest else kv :: Queries.insert rest k v

/-- `Queries.Add` (src/db.go lines 120-143).  Transliterated:
no values is a no-op; a leading `SET` operator re-keys to `"=" ++ key`;
an existing two-element entry has its head overwritten by `QueryIn`; a
fresh key with a plain first value is seeded with `=` (one value) or
`IN` (several); finally the values are appended to the entry. -/
def Queries.add (queries : Queries) (key : String) (values : List QueryValue) : Queries :=
  match values with
  | [] => queries
  | v0 :: _ =>
    let key :=
      match asOp v0 with
      | some set => if set.Operator = QuerySet.Operator then "=" ++ key else key
      | none => key
    let queries :=
      match queries.find key with
      | some current =>
        if current.length = 2 then
          queries.insert key (current.set 0 (QueryValue.op QueryIn))
        else queries
      | none =>
        match asOp v0 with
        | some _ => queries
        | none =>
          if values.length = 1 then queries.insert key [QueryValue.op QueryEqual]
          else queries.insert key [QueryValue.op QueryIn]
    queries.insert key (((queries.find key).getD []) ++ values)

/-- Go `strings.HasPrefix`, character-wise. -/
def hasPrefix (s pre : String) : Bool := pre.data.isPrefixOf s.data

/-- Go `strings.TrimPrefix`, character-wise. -/
def trimPrefix (s pre : String) : String :=
  if hasPrefix s pre then String.mk (s.data.drop pre.data.length) else s

/-- Go `strings.Join(elems, sep)`. -/
def joinStrings (sep : String) : List String → String
  | [] => ""
  | [x] => x
  | x :: xs => x ++ sep ++ joinStrings sep xs

/-- The body of the `range queries` loop of `Queries.WhereClause`
(src/db.go lines 149-166), on one `(column, values)` pair.
`none` models the Go panic on `values[0]`/`values[1]`; a failed type
assertion leaves the zero `QueryOperator` (as in the Go
`operator, _ := values[0].(QueryOperator)`). -/
def whereStep (acc : String × List QueryValue) (kv : String × Query) :
    Option (String × List QueryValue) :=
  let clause := acc.1
  let parms := acc.2
  let column := kv.1
  let values := kv.2
  match values with
  | [] => none
  | v0 :: rest =>
    let operator := (asOp v0).getD ⟨"", 0⟩
    if operator.Operator = QueryIn.Operator then
      let folded := rest.foldl
        (fun (pa : List QueryValue × List String) value =>
          (pa.1 ++ [value], pa.2 ++ ["$" ++ toString (pa.1.length + 1)]))
        (parms, [])
      some (clause ++ " AND " ++ column ++ " " ++ operator.Operator ++
              " (" ++ joinStrings ", " folded.2 ++ ")",
            folded.1)
    else if values.length ≠ operator.Arity ∨ operator.Operator = QuerySet.Operator then
      -- ignore wrong # of arguments or SET Operator (used by UpdateStatement)
      some (clause, parms)
    else
      match rest with
      | [] => none
      | v1 :: _ =>
        some (clause ++ " AND " ++ column ++ " " ++ operator.Operator ++
                " $" ++ toString (parms.length + 1),
              parms ++ [v1])

/-- `Queries.WhereClause` (src/db.go lines 146-167). -/
def Queries.whereClause (queries : Queries) : Option (String × List QueryValue) := do
  let r ← queries.foldlM whereStep ("", [])
  return (trimPrefix r.1 " AND ", r.2)

/-- `DeleteStatement.Build` (src/db.go lines 188-195). -/
def DeleteStatement.Build (table : String) (columns : List String) (queries : Queries) :
    Option (String × List QueryValue) := do
  let r ← queries.whereClause
  if r.1.length > 0 then
    return ("DELETE FROM " ++ table ++ " WHERE " ++ r.1, r.2)
  return ("DELETE FROM " ++ table, r.2)

/-- The body of the assignment-scan loop of `UpdateStatement.Build`
(src/unnamed/part_003 lines 30-35), on one `(key, values)` pair.
`none` models the Go panic on `values[0]`/`values[1]`. -/
def updateStep (acc : List QueryValue × List String) (kv : String × Query) :
    Option (List QueryValue × List String) :=
  let parms := acc.1
  let assignments := acc.2
  match kv.2 with
  | [] => none
  | v0 :: rest =>
    match asOp v0 with
    | some operator =>
      if operator.Operator = QuerySet.Operator then
        match rest with
        | [] => none
        | v1 :: _ =>
          some (parms ++ [v1],
                assignments ++
                  [trimPrefix kv.1 "=" ++ " = $" ++ toString (parms.length + 1)])
      else some (parms, assignments)
    | none => some (parms, assignments)

/-- `UpdateStatement.Build` (src/unnamed/part_003 lines 23-36): refuses
to build when the compiled where-clause is empty, otherwise appends the
`SET` assignments after the where-clause parameters. -/
def UpdateStatement.Build (table : String) (columns : List String) (queries : Queries) :
    Option (String × List QueryValue) := do
  let w ← queries.whereClause
  if w.1.length = 0 then
    return ("", [])
  let r ← queries.foldlM updateStep (w.2, [])
  return ("UPDATE " ++ table ++ " SET " ++ joinStrings ", " r.2 ++ " WHERE " ++ w.1,
          r.1)

/-- The body of the loop of `InsertStatement.Build` (src/scanners.go
lines 47-57), on one `(key, query)` pair.  `none` models the Go panic
on `query[1]`. -/
def insertStep (acc : List String × List QueryValue × List String) (kv : String × Query) :
    Option (List String × List QueryValue × List String) :=
  let cols := acc.1
  let parms := acc.2.1
  let vals := acc.2.2
  match kv.2 with
  | _ :: v1 :: _ =>
    some (cols ++ [trimPrefix kv.1 "="],
          parms ++ [v1],
          vals ++ ["$" ++ toString (parms.length + 1)])
  | _ => none

/-- `InsertStatement.Build` (src/scanners.go lines 47-57). -/
def InsertStatement.Build (table : String) (columns : List String) (queries : Queries) :
    Option (String × List QueryValue) := do
  let r ← queries.foldlM insertStep ([], [], [])
  return ("INSERT INTO " ++ table ++ " (" ++ joinStrings ", " r.1 ++
            ") VALUES (" ++ joinStrings ", " r.2.2 ++ ")",
          r.2.1)

/-- The predicate set of the C3 example:
`Queries{}.Add("age", 18).Add("age", QuerySet, 25)`. -/
def exampleSet : Queries :=
  (Queries.add [] "age" [.int 18]).add "age" [.op QuerySet, .int 25]

/-- A valid filter entry in the sense of C1: an operator-headed entry
whose operand count matches the operator's arity for the non-membership
catalog operators, at least one operand for `IN`, and no `SET` entry. -/
def validFilterEntry (q : Query) : Bool :=
  match q with
  | .op o :: rest =>
    if o.Operator = QueryIn.Operator then !rest.isEmpty
    else decide (o ∈ opCatalog) && !(decide (o.Operator = QuerySet.Operator)) &&
      decide (q.length = o.Arity)
  | _ => false

/-- How many parameters `WhereClause` binds for one compiled entry:
one per non-`IN` operator (only the first operand is bound, BETWEEN
included), k for an `IN` entry with k operands. -/
def entryContribution (q : Query) : Nat :=
  match q with
  | .op o :: rest => if o.Operator = QueryIn.Operator then rest.length else 1
  | _ => 1

/-- The raw clause accumulated by the `WhereClause` loop before the
leading join token is stripped: each fragment preceded by `" AND "`. -/
def andJoin : List String → String
  | [] => ""
  | f :: fs => " AND " ++ f ++ andJoin fs

/-- Whether `WhereClause` compiles the entry (emits a fragment) rather
than skipping it: `IN`-tagged, or operand count matching the arity with
a non-`SET` operator.  Mirrors the branch structure of `whereStep`. -/
def keepEntry (kv : String × Query) : Bool :=
  match kv.2 with
  | [] => false
  | v0 :: _ =>
    let o := (asOp v0).getD ⟨"", 0⟩
    if o.Operator = QueryIn.Operator then true
    else if kv.2.length ≠ o.Arity ∨ o.Operator = QuerySet.Operator then false
    else true

/-- Entries on which the Go `WhereClause` loop cannot panic: nonempty,
and a compiled non-`IN` entry has a second element for `values[1]`. -/
def safeEntry (kv : String × Query) : Bool :=
  match kv.2 with
  | [] => false
  | v0 :: rest =>
    let o := (asOp v0).getD ⟨"", 0⟩
    if o.Operator = QueryIn.Operator then true
    else if kv.2.length ≠ o.Arity ∨ o.Operator = QuerySet.Operator then true
    else !rest.isEmpty

/-- Whether an entry is assignment-tagged: `SET`-operator-headed. -/
def setHeaded (e : Query) : Bool :=
  match e with
  | .op o :: _ => decide (o.Operator = QuerySet.Operator)
  | _ => false

/-- Expected parameters appended by the Update builder's assignment
scan: the second element of each `SET`-headed entry, in order. -/
def setValues : Queries → List QueryValue
  | [] => []
  | kv :: rest =>
    match kv.2 with
    | .op o :: v1 :: _ =>
      if o.Operator = QuerySet.Operator then v1 :: setValues rest else setValues rest
    | _ => setValues rest

/-- Expected assignment fragments emitted by the Update builder's
assignment scan when `n` parameters are already bound: each `SET`
entry's key with the sentinel prefix stripped, `= $i` with `i`
continuing the running parameter count. -/
def setAssignmentsFrom (n : Nat) : Queries → List String
  | [] => []
  | kv :: rest =>
    match kv.2 with
    | .op o :: _ :: _ =>
      if o.Operator = QuerySet.Operator then
        (trimPrefix kv.1 "=" ++ " = $" ++ toString (n + 1)) :: setAssignmentsFrom (n + 1) rest
      else setAssignmentsFrom n rest
    | _ => setAssignmentsFrom n rest

/-- The sets built from the empty set by one `Add` call per element of
`vs`, all on the same key, each call passing a single value. -/
def addSingles (k : String) (vs : List QueryValue) : Queries :=
  vs.foldl (fun q v => Queries.add q k [v]) []

/-- The predicate sets reachable from the empty set by `Add` calls. -/
inductive Reachable : Queries → Prop
  | empty : Reachable []
  | add (qs : Queries) (k : String) (vs : List QueryValue) :
      Reachable qs → Reachable (qs.add k vs)

/-- C3: `Queries{}.Add("age", 18).Add("age", QuerySet, 25)` fed to the
Update builder with table `person` yields
`UPDATE person SET age = $2 WHERE age = $1` with parameters `[18, 25]`
(the assignment placeholder continues the count started by the WHERE
clause); the same statement results under either iteration order of the
two-entry map. -/
theorem update_person_age_example :
    UpdateStatement.Build "person" [] exampleSet =
      some ("UPDATE person SET age = $2 WHERE age = $1", [.int 18, .int 25]) ∧
    UpdateStatement.Build "person" [] exampleSet.reverse =
      some ("UPDATE person SET age = $2 WHERE age = $1", [.int 18, .int 25]) :=
  ⟨rfl, rfl⟩

/-- C6: the Update builder returns an empty statement string and an
empty parameter list whenever the compiled WHERE clause is empty
(mass-update refusal). -/
theorem update_refuses_empty_where (table : String) (columns : List String)
    (queries : Queries) (h : ∃ ps, queries.whereClause = some ("", ps)) :
    UpdateStatement.Build table columns queries = some ("", []) := by
  obtain ⟨ps, hw⟩ := h
  simp [UpdateStatement.Build, hw]

/-- C6 witness: a set holding only the SET-tagged entry built by
`Queries{}.Add("age", QuerySet, 25)` compiles to an empty WHERE clause,
and Update on it returns the empty statement and no parameters. -/
theorem update_refuses_empty_where_witness :
    UpdateStatement.Build "person" [] (Queries.add [] "age" [.op QuerySet, .int 25]) =
      some ("", []) :=
  update_refuses_empty_where "person" [] _ ⟨[], rfl⟩

/-- C8: `Add` with zero values is a no-op: the predicate set is
returned unchanged, and in particular its key count is unchanged. -/
theorem add_no_values_noop (queries : Queries) (key : String) :
    queries.add key [] = queries ∧ (queries.add key []).length = queries.length :=
  ⟨rfl, rfl⟩

/-- C9: `WhereClause` on the empty predicate set returns an empty
clause string and an empty parameter list, and the Delete builder on
the empty predicate set with table `person` yields exactly
`DELETE FROM person` with no parameters. -/
theorem whereClause_empty_and_delete :
    Queries.whereClause [] = some ("", []) ∧
    DeleteStatement.Build "person" [] [] = some ("DELETE FROM person", []) :=
  ⟨rfl, rfl⟩

/-- C1 counterexample: a predicate set holding the single valid filter
entry `age BETWEEN 18 AND 65` (entry length 3 = the arity of BETWEEN)
compiles to the fragment `age BETWEEN $1` with ONE parameter — not the
two parameters the claim requires for a BETWEEN entry: only the first
operand is bound, the second is dropped. -/
theorem whereClause_between_binds_one_param :
    Queries.whereClause [("age", [.op QueryBetween, .int 18, .int 65])] =
      some ("age BETWEEN $1", [.int 18]) ∧
    (Queries.whereClause [("age", [.op QueryBetween, .int 18, .int 65])]).map
        (fun r => r.2.length) ≠ some 2 := by
  exact ⟨rfl, by decide⟩

/-- C2 counterexample: `Queries{}.Add("age", QuerySet, 25).Add("age",
QuerySet, 25)` stores the entry under the sentinel key `=age` and
promotes its operator to `IN`; `WhereClause` then renders the stored
key without stripping the sentinel, so the emitted clause starts with
`=`: the sentinel does appear in an output statement string. -/
theorem whereClause_sentinel_leak :
    (Queries.add (Queries.add [] "age" [.op QuerySet, .int 25]) "age"
        [.op QuerySet, .int 25]) =
      [("=age", [.op QueryIn, .int 25, .op QuerySet, .int 25])] ∧
    Queries.whereClause [("=age", [.op QueryIn, .int 25, .op QuerySet, .int 25])] =
      some ("=age IN ($1, $2, $3)", [.int 25, .op QuerySet, .int 25]) ∧
    hasPrefix "=age IN ($1, $2, $3)" "=" = true :=
  ⟨rfl, rfl, rfl⟩

/-- C4 counterexample: `Queries{}.Add("age", 18).Add("age",
QueryGreater, 21)` passes the explicit catalog operator `>` on a key
that already has an entry; the resulting entry's stored operator is
`IN` (the promoted previous operator), not `>`, and the explicit
operator is appended as a mere operand. -/
theorem add_operator_on_existing_key_cex :
    (Queries.add (Queries.add [] "age" [.int 18]) "age"
        [.op QueryGreater, .int 21]).find "age" =
      some [.op QueryIn, .int 18, .op QueryGreater, .int 21] ∧
    QueryIn ≠ QueryGreater :=
  ⟨rfl, by decide⟩

theorem find_insert_self (qs : Queries) (k : String) (v : Query) :
    (qs.insert k v).find k = some v := by
  induction qs with
  | nil => simp [Queries.insert, Queries.find]
  | cons kv rest ih =>
    by_cases h : kv.1 = k <;> simp [Queries.insert, Queries.find, h, ih]

theorem mem_insert {kv : String × Query} {qs : Queries} {k : String} {v : Query}
    (h : kv ∈ qs.insert k v) : kv = (k, v) ∨ kv ∈ qs := by
  induction qs with
  | nil => simpa [Queries.insert] using h
  | cons kv' rest ih =>
    by_cases h' : kv'.1 = k
    · simp [Queries.insert, h'] at h
      rcases h with h | h
      · exact Or.inl h
      · exact Or.inr (List.mem_cons_of_mem _ h)
    · simp [Queries.insert, h'] at h
      rcases h with h | h
      · exact Or.inr (by simp [h])
      · rcases ih h with h | h
        · exact Or.inl h
        · exact Or.inr (List.mem_cons_of_mem _ h)

theorem find_mem {qs : Queries} {k : String} {e : Query} (h : qs.find k = some e) :
    (k, e) ∈ qs := by
  induction qs with
  | nil => simp [Queries.find] at h
  | cons kv rest ih =>
    by_cases h' : kv.1 = k
    · simp [Queries.find, h'] at h
      have : kv = (k, e) := by
        cases kv
        simp_all
      simp [← this]
    · simp [Queries.find, h'] at h
      exact List.mem_cons_of_mem _ (ih h)

/-- C4 (amended): an explicit operator as first value governs the entry
exactly when the storage key (`=`-prefixed for `SET`) is absent: the
stored entry is then the values list itself, headed by that operator,
with no auto-detection.  When the storage key is present, the existing
entry keeps its stored operator (overwritten by `IN` when the entry had
exactly one operand) and the whole values list — operator included — is
appended as operands. -/
theorem add_explicit_operator_governs (qs : Queries) (k : String) (o : QueryOperator)
    (vs : List QueryValue) :
    ((qs.find (if o.Operator = QuerySet.Operator then "=" ++ k else k) = none →
        (qs.add k (QueryValue.op o :: vs)).find
            (if o.Operator = QuerySet.Operator then "=" ++ k else k) =
          some (QueryValue.op o :: vs)) ∧
      ∀ e, qs.find (if o.Operator = QuerySet.Operator then "=" ++ k else k) = some e →
        (qs.add k (QueryValue.op o :: vs)).find
            (if o.Operator = QuerySet.Operator then "=" ++ k else k) =
          some ((if e.length = 2 then e.set 0 (QueryValue.op QueryIn) else e) ++
                  (QueryValue.op o :: vs))) := by
  constructor
  · intro h
    simp [Queries.add, asOp, h, find_insert_self]
  · intro e he
    by_cases hlen : e.length = 2 <;>
      simp [Queries.add, asOp, he, hlen, find_insert_self]

/-- C4 witness: `Queries{}.Add("age", QueryGreater, 21)` on a fresh key
stores the entry `[>, 21]` headed by the explicit operator. -/
theorem add_explicit_operator_governs_witness :
    (Queries.add [] "age" [QueryValue.op QueryGreater, QueryValue.int 21]).find "age" =
      some [QueryValue.op QueryGreater, QueryValue.int 21] := by
  have h := (add_explicit_operator_governs [] "age" QueryGreater [QueryValue.int 21]).1
  simp [QueryGreater, QuerySet] at h
  exact h (by simp [Queries.find])

theorem length_two_shape {e : Query} (h : e.length = 2) :
    ∃ a b, e = [a, b] := by
  match e, h with
  | [a, b], _ => exact ⟨a, b, rfl⟩

theorem asOp_some {v : QueryValue} {o : QueryOperator} (h : asOp v = some o) :
    v = QueryValue.op o := by
  cases v <;> simp_all [asOp]

theorem opHeaded_add (qs : Queries) (k : String) (vs : List QueryValue)
    (h : ∀ kv ∈ qs, ∃ o rest, kv.2 = QueryValue.op o :: rest) :
    ∀ kv ∈ qs.add k vs, ∃ o rest, kv.2 = QueryValue.op o :: rest := by
  match vs with
  | [] => simpa [Queries.add] using h
  | v0 :: vrest =>
    intro kv hkv
    rw [Queries.add] at hkv
    rcases hov : asOp v0 with _ | o0 <;> rw [hov] at hkv
    · -- plain first value: the key stays k
      rcases hfind : qs.find k with _ | current <;> rw [hfind] at hkv
      · -- fresh key, seeded with = or IN
        by_cases h1 : (v0 :: vrest).length = 1 <;> simp only [h1, if_true, if_false] at hkv
        all_goals {
          rcases mem_insert hkv with rfl | hkv'
          · rw [find_insert_self]
            exact ⟨_, _, rfl⟩
          rcases mem_insert hkv' with rfl | hold
          · exact ⟨_, _, rfl⟩
          · exact h _ hold
        }
      · -- existing entry, possibly promoted to IN
        by_cases hlen : current.length = 2 <;> simp only [hlen, if_true, if_false] at hkv
        · obtain ⟨a, b, rfl⟩ := length_two_shape hlen
          rcases mem_insert hkv with rfl | hkv'
          · rw [find_insert_self]
            exact ⟨_, _, rfl⟩
          rcases mem_insert hkv' with rfl | hold
          · exact ⟨_, _, rfl⟩
          · exact h _ hold
        · rcases mem_insert hkv with rfl | hold
          · rw [hfind]
            obtain ⟨o, rest, hcur⟩ := h _ (find_mem hfind)
            have hc : current = QueryValue.op o :: rest := hcur
            exact ⟨o, rest ++ v0 :: vrest, by rw [hc]; simp⟩
          · exact h _ hold
    · -- explicit operator first value
      have hv0 : v0 = QueryValue.op o0 := asOp_some hov
      rcases hfind : qs.find (if o0.Operator = QuerySet.Operator then "=" ++ k else k)
          with _ | current <;> rw [hfind] at hkv
      · -- fresh storage key: the entry is the values themselves
        rcases mem_insert hkv with rfl | hold
        · rw [hfind]
          exact ⟨o0, vrest, by simp [hv0]⟩
        · exact h _ hold
      · by_cases hlen : current.length = 2 <;> simp only [hlen, if_true, if_false] at hkv
        · obtain ⟨a, b, rfl⟩ := length_two_shape hlen
          rcases mem_insert hkv with rfl | hkv'
          · rw [find_insert_self]
            exact ⟨_, _, rfl⟩
          rcases mem_insert hkv' with rfl | hold
          · exact ⟨_, _, rfl⟩
          · exact h _ hold
        · rcases mem_insert hkv with rfl | hold
          · rw [hfind]
            obtain ⟨o, rest, hcur⟩ := h _ (find_mem hfind)
            have hc : current = QueryValue.op o :: rest := hcur
            exact ⟨o, rest ++ v0 :: vrest, by rw [hc]; simp⟩
          · exact h _ hold

theorem reachable_opHeaded (qs : Queries) (h : Reachable qs) :
    ∀ kv ∈ qs, ∃ o rest, kv.2 = QueryValue.op o :: rest := by
  induction h with
  | empty => intro kv hkv; simp at hkv
  | add qs' k vs hr ih => exact opHeaded_add qs' k vs ih

/-- C10: every predicate set reachable from the empty set by `Add`
calls has only nonempty entries headed by a `QueryOperator`, so the
unchecked `values[0]` accesses of `WhereClause` and of the Update
builder's assignment scan are well-defined on such sets. -/
theorem reachable_entry_operator_headed (qs : Queries) (h : Reachable qs)
    (kv : String × Query) (hkv : kv ∈ qs) :
    ∃ o rest, kv.2 = QueryValue.op o :: rest :=
  reachable_opHeaded qs h kv hkv

/-- C10 witness: the set `Queries{}.Add("age", 18)` is reachable and
its single entry is headed by the operator `=`. -/
theorem reachable_entry_operator_headed_witness :
    ∃ o rest,
      (("age", [QueryValue.op QueryEqual, QueryValue.int 18]) : String × Query).2 =
        QueryValue.op o :: rest :=
  reachable_entry_operator_headed (Queries.add [] "age" [QueryValue.int 18])
    (Reachable.add [] "age" [QueryValue.int 18] Reachable.empty) _ (by decide)

theorem add_single_on_entry (k : String) (e : Query) (w : QueryValue)
    (hw : asOp w = none) :
    Queries.add [(k, e)] k [w] =
      [(k, (if e.length = 2 then e.set 0 (QueryValue.op QueryIn) else e) ++ [w])] := by
  by_cases hlen : e.length = 2 <;>
    simp [Queries.add, hw, hlen, Queries.find, Queries.insert]

theorem addSingles_run (k : String) (ws : List QueryValue)
    (hws : ∀ w ∈ ws, asOp w = none) :
    ∀ e : Query, 3 ≤ e.length →
      ws.foldl (fun q v => Queries.add q k [v]) [(k, e)] = [(k, e ++ ws)] := by
  induction ws with
  | nil => intro e he; simp
  | cons w ws ih =>
    intro e he
    have hw : asOp w = none := hws w (by simp)
    have hlen : ¬e.length = 2 := by omega
    rw [List.foldl_cons, add_single_on_entry k e w hw]
    simp only [hlen, if_false]
    rw [ih (fun x hx => hws x (by simp [hx])) (e ++ [w]) (by simp; omega)]
    simp

/-- C5: a predicate set built from the empty set by repeated `Add`
calls on the same plain key, each call supplying one plain operand,
stores the operator `=` when exactly one call was made and `IN` as soon
as a second value has been added; the operands accumulate in order. -/
theorem add_singles_operator (k : String) (v : QueryValue) (vs : List QueryValue)
    (hv : asOp v = none) (hvs : ∀ w ∈ vs, asOp w = none) :
    (addSingles k (v :: vs)).find k =
      some (QueryValue.op (if vs.isEmpty then QueryEqual else QueryIn) :: v :: vs) := by
  match vs with
  | [] =>
    simp [addSingles, Queries.add, hv, Queries.find, Queries.insert]
  | w :: ws =>
    have hw : asOp w = none := hvs w (by simp)
    have h1 : Queries.add [] k [v] = [(k, [QueryValue.op QueryEqual, v])] := by
      simp [Queries.add, hv, Queries.find, Queries.insert]
    have h2 : Queries.add [(k, [QueryValue.op QueryEqual, v])] k [w] =
        [(k, [QueryValue.op QueryIn, v, w])] := by
      simpa using add_single_on_entry k [QueryValue.op QueryEqual, v] w hw
    rw [addSingles, List.foldl_cons, h1, List.foldl_cons, h2,
      addSingles_run k ws (fun x hx => hvs x (by simp [hx]))
        [QueryValue.op QueryIn, v, w] (by simp)]
    simp [Queries.find]

/-- C5 witness: one `Add("age", 1)` stores `=`; a second `Add("age", 2)`
promotes the stored operator to `IN`. -/
theorem add_singles_operator_witness :
    (addSingles "age" [QueryValue.int 1]).find "age" =
      some [QueryValue.op QueryEqual, QueryValue.int 1] ∧
    (addSingles "age" [QueryValue.int 1, QueryValue.int 2]).find "age" =
      some [QueryValue.op QueryIn, QueryValue.int 1, QueryValue.int 2] := by
  constructor
  · simpa using add_singles_operator "age" (QueryValue.int 1) [] rfl (by simp)
  · simpa using
      add_singles_operator "age" (QueryValue.int 1) [QueryValue.int 2] rfl (by simp [asOp])

theorem whereStep_skip {kv : String × Query} (hsafe : safeEntry kv = true)
    (hkeep : keepEntry kv = false) (acc : String × List QueryValue) :
    whereStep acc kv = some acc := by
  obtain ⟨col, e⟩ := kv
  match e with
  | [] => simp [safeEntry] at hsafe
  | v0 :: rest =>
    simp only [keepEntry] at hkeep
    simp only [whereStep]
    by_cases hin : ((asOp v0).getD ⟨"", 0⟩).Operator = QueryIn.Operator
    · rw [if_pos hin] at hkeep
      simp at hkeep
    · rw [if_neg hin] at hkeep
      rw [if_neg hin]
      by_cases hskip : (v0 :: rest).length ≠ ((asOp v0).getD ⟨"", 0⟩).Arity ∨
          ((asOp v0).getD ⟨"", 0⟩).Operator = QuerySet.Operator
      · rw [if_pos hskip]
      · rw [if_neg hskip] at hkeep
        simp at hkeep

theorem whereStep_some {kv : String × Query} (hsafe : safeEntry kv = true)
    (acc : String × List QueryValue) : (whereStep acc kv).isSome = true := by
  obtain ⟨col, e⟩ := kv
  match e with
  | [] => simp [safeEntry] at hsafe
  | v0 :: rest =>
    simp only [safeEntry] at hsafe
    simp only [whereStep]
    by_cases hin : ((asOp v0).getD ⟨"", 0⟩).Operator = QueryIn.Operator
    · rw [if_pos hin]
      rfl
    · rw [if_neg hin] at hsafe
      rw [if_neg hin]
      by_cases hskip : (v0 :: rest).length ≠ ((asOp v0).getD ⟨"", 0⟩).Arity ∨
          ((asOp v0).getD ⟨"", 0⟩).Operator = QuerySet.Operator
      · rw [if_pos hskip]
        rfl
      · rw [if_neg hskip] at hsafe
        rw [if_neg hskip]
        match rest, hsafe with
        | v1 :: rest', _ => rfl

theorem foldWhere_filter (p : String × Query → Bool) (qs : Queries)
    (hdrop : ∀ kv ∈ qs, p kv = false →
      ∀ acc : String × List QueryValue, whereStep acc kv = some acc) :
    ∀ acc, qs.foldlM whereStep acc = (qs.filter p).foldlM whereStep acc := by
  induction qs with
  | nil => intro acc; rfl
  | cons kv rest ih =>
    intro acc
    have ihrest := ih (fun kv' h' hp' => hdrop kv' (List.mem_cons_of_mem _ h') hp')
    by_cases hp : p kv
    · simp only [List.filter_cons, hp, if_true, List.foldlM_cons]
      cases hstep : whereStep acc kv with
      | none => rfl
      | some acc' => simp [hstep, ihrest acc']
    · have hstep := hdrop kv (by simp) (by simpa using hp)
      simp only [List.filter_cons, hp, if_false, List.foldlM_cons, hstep,
        Bool.false_eq_true]
      simpa using ihrest acc

theorem foldWhere_some (qs : Queries) (h : ∀ kv ∈ qs, safeEntry kv = true) :
    ∀ acc, (qs.foldlM whereStep acc).isSome = true := by
  induction qs with
  | nil => intro acc; rfl
  | cons kv rest ih =>
    intro acc
    have hs := whereStep_some (h kv (by simp)) acc
    obtain ⟨acc', hacc'⟩ := Option.isSome_iff_exists.mp hs
    simp only [List.foldlM_cons, hacc']
    simpa using ih (fun kv' h' => h kv' (List.mem_cons_of_mem _ h')) acc'

/-- C7: in `WhereClause`, every non-`IN`-tagged entry whose stored
length does not match its operator's arity, and every `SET`-tagged
entry, contributes no fragment and no parameters: the result equals the
clause compiled from the kept entries alone, and no error occurs (the
Go loop cannot panic on a set of safe entries). -/
theorem whereClause_skips_mismatch_and_set (qs : Queries)
    (h : ∀ kv ∈ qs, safeEntry kv = true) :
    qs.whereClause = Queries.whereClause (qs.filter keepEntry) ∧
      (qs.whereClause).isSome = true := by
  have hfold := foldWhere_filter keepEntry qs
    (fun kv hkv hk => whereStep_skip (h kv hkv) hk)
  constructor
  · simp only [Queries.whereClause]
    rw [hfold ("", [])]
  · obtain ⟨r, hr⟩ := Option.isSome_iff_exists.mp (foldWhere_some qs h ("", []))
    simp [Queries.whereClause, hr]

/-- C7 witness: a set holding a valid `>` filter, a LIKE entry with too
many operands, and a SET-tagged entry compiles exactly as the set
holding the `>` filter alone, without error. -/
theorem whereClause_skips_mismatch_and_set_witness :
    Queries.whereClause
        [("age", [QueryValue.op QueryGreater, QueryValue.int 18]),
         ("name", [QueryValue.op QueryLike, QueryValue.str "a", QueryValue.str "b"]),
         ("=age", [QueryValue.op QuerySet, QueryValue.int 25])] =
      Queries.whereClause
        (List.filter keepEntry
          [("age", [QueryValue.op QueryGreater, QueryValue.int 18]),
           ("name", [QueryValue.op QueryLike, QueryValue.str "a", QueryValue.str "b"]),
           ("=age", [QueryValue.op QuerySet, QueryValue.int 25])]) ∧
    (Queries.whereClause
        [("age", [QueryValue.op QueryGreater, QueryValue.int 18]),
         ("name", [QueryValue.op QueryLike, QueryValue.str "a", QueryValue.str "b"]),
         ("=age", [QueryValue.op QuerySet, QueryValue.int 25])]).isSome = true :=
  whereClause_skips_mismatch_and_set _ (by decide)

theorem trimPrefix_append (p s : String) : trimPrefix (p ++ s) p = s := by
  have hpre : hasPrefix (p ++ s) p = true := by
    simp [hasPrefix, List.isPrefixOf_iff_prefix]
  simp only [trimPrefix, hpre, if_true]
  have : (p ++ s).data = p.data ++ s.data := by simp
  rw [this, List.drop_left]

theorem joinStrings_cons (f : String) (fs : List String) :
    joinStrings " AND " (f :: fs) = f ++ andJoin fs := by
  induction fs generalizing f with
  | nil => simp [joinStrings, andJoin]
  | cons g gs ih =>
    simp only [joinStrings, andJoin]
    rw [ih g]
    simp only [andJoin, String.append_assoc]

theorem trimPrefix_andJoin (fs : List String) :
    trimPrefix (andJoin fs) " AND " = joinStrings " AND " fs := by
  cases fs with
  | nil => rfl
  | cons f fs =>
    rw [joinStrings_cons]
    simp only [andJoin]
    rw [String.append_assoc]
    exact trimPrefix_append " AND " (f ++ andJoin fs)

theorem inFoldl_fst (rest : List QueryValue) :
    ∀ (parms : List QueryValue) (args : List String),
      (rest.foldl
        (fun (pa : List QueryValue × List String) value =>
          (pa.1 ++ [value], pa.2 ++ ["$" ++ toString (pa.1.length + 1)]))
        (parms, args)).1 = parms ++ rest := by
  induction rest with
  | nil => intro parms args; simp
  | cons v vs ih =>
    intro parms args
    simp only [List.foldl_cons]
    rw [ih]
    simp

theorem catalog_arity {o : QueryOperator} (ho : o ∈ opCatalog) :
    2 ≤ o.Arity ∧ o.Operator ≠ QuerySet.Operator := by
  simp only [opCatalog, List.mem_cons, List.not_mem_nil, or_false] at ho
  rcases ho with rfl | rfl | rfl | rfl | rfl | rfl | rfl | rfl | rfl <;> decide

theorem whereStep_valid (col : String) (e : Query) (he : validFilterEntry e = true)
    (clause : String) (parms : List QueryValue) :
    ∃ frag ps, whereStep (clause, parms) (col, e) =
        some (clause ++ (" AND " ++ frag), parms ++ ps) ∧
      ps.length = entryContribution e := by
  match e with
  | [] => simp [validFilterEntry] at he
  | .str s :: rest => simp [validFilterEntry] at he
  | .int n :: rest => simp [validFilterEntry] at he
  | .op o :: rest =>
    by_cases hin : o.Operator = QueryIn.Operator
    · refine ⟨col ++ " " ++ o.Operator ++ " (" ++
        joinStrings ", " ((rest.foldl
          (fun (pa : List QueryValue × List String) value =>
            (pa.1 ++ [value], pa.2 ++ ["$" ++ toString (pa.1.length + 1)]))
          (parms, [])).2) ++ ")",
        rest, ?_, ?_⟩
      · simp only [whereStep, asOp, Option.getD_some]
        rw [if_pos hin, inFoldl_fst]
        simp [String.append_assoc]
      · simp [entryContribution, hin]
    · simp only [validFilterEntry] at he
      rw [if_neg hin] at he
      simp only [Bool.and_eq_true, decide_eq_true_eq, Bool.not_eq_eq_eq_not,
        Bool.not_true, decide_eq_false_iff_not] at he
      obtain ⟨⟨hcat, hset⟩, hlen⟩ := he
      have h2 : 2 ≤ o.Arity := (catalog_arity hcat).1
      have hrest : rest ≠ [] := by
        intro hnil
        subst hnil
        simp at hlen
        omega
      match rest, hrest with
      | v1 :: rest', _ =>
        refine ⟨col ++ " " ++ o.Operator ++ " $" ++ toString (parms.length + 1),
          [v1], ?_, ?_⟩
        · have hcond : ¬((QueryValue.op o :: v1 :: rest').length ≠ o.Arity ∨
              o.Operator = QuerySet.Operator) := by
            push_neg
            exact ⟨by simpa using hlen, hset⟩
          simp only [whereStep, asOp, Option.getD_some]
          rw [if_neg hin, if_neg hcond]
          simp [String.append_assoc]
        · simp [entryContribution, hin]

theorem foldWhere_shape (qs : Queries) (h : ∀ kv ∈ qs, validFilterEntry kv.2 = true) :
    ∀ clause parms, ∃ frags ps,
      qs.foldlM whereStep (clause, parms) = some (clause ++ andJoin frags, parms ++ ps) ∧
      frags.length = qs.length ∧
      ps.length = (qs.map (fun kv => entryContribution kv.2)).sum := by
  induction qs with
  | nil =>
    intro clause parms
    exact ⟨[], [], by simp [andJoin], rfl, rfl⟩
  | cons kv rest ih =>
    intro clause parms
    obtain ⟨col, e⟩ := kv
    obtain ⟨frag, ps1, hstep, hps1⟩ :=
      whereStep_valid col e (h (col, e) (by simp)) clause parms
    obtain ⟨frags, ps, hfold, hlen, hsum⟩ :=
      ih (fun kv' h' => h kv' (List.mem_cons_of_mem _ h'))
        (clause ++ (" AND " ++ frag)) (parms ++ ps1)
    refine ⟨frag :: frags, ps1 ++ ps, ?_, by simp [hlen], ?_⟩
    · rw [List.foldlM_cons, hstep]
      show List.foldlM whereStep (clause ++ (" AND " ++ frag), parms ++ ps1) rest = _
      rw [hfold]
      simp [andJoin, String.append_assoc]
    · simp [hsum, hps1]

/-- C1 (amended): on a predicate set whose entries are all valid filter
entries, `WhereClause` returns exactly N ` AND `-joined fragments for N
entries, and a parameter list whose length is the sum of the entry
contributions: 1 per non-`IN` operator (binary comparisons and BETWEEN
alike — only the first operand is bound), k for an `IN` entry with k
operands. -/
theorem whereClause_fragments_param_count (qs : Queries)
    (h : ∀ kv ∈ qs, validFilterEntry kv.2 = true) :
    ∃ frags ps, qs.whereClause = some (joinStrings " AND " frags, ps) ∧
      frags.length = qs.length ∧
      ps.length = (qs.map (fun kv => entryContribution kv.2)).sum := by
  obtain ⟨frags, ps, hfold, hlen, hsum⟩ := foldWhere_shape qs h "" []
  refine ⟨frags, ps, ?_, hlen, hsum⟩
  simp only [Queries.whereClause, hfold, Option.some_bind]
  simp [trimPrefix_andJoin]

/-- C1 witness: a set with a binary `>=` filter, an `IN` filter with
two operands and a BETWEEN filter compiles to three fragments and
1 + 2 + 1 = 4 parameters. -/
theorem whereClause_fragments_param_count_witness :
    ∃ frags ps,
      Queries.whereClause
          [("age", [QueryValue.op QueryGreaterOrEqual, QueryValue.int 18]),
           ("id", [QueryValue.op QueryIn, QueryValue.str "a", QueryValue.str "b"]),
           ("span", [QueryValue.op QueryBetween, QueryValue.int 1, QueryValue.int 9])] =
        some (joinStrings " AND " frags, ps) ∧
      frags.length = 3 ∧ ps.length = 4 := by
  have h := whereClause_fragments_param_count
    [("age", [QueryValue.op QueryGreaterOrEqual, QueryValue.int 18]),
     ("id", [QueryValue.op QueryIn, QueryValue.str "a", QueryValue.str "b"]),
     ("span", [QueryValue.op QueryBetween, QueryValue.int 1, QueryValue.int 9])]
    (by decide)
  simpa [entryContribution, QueryIn, QueryGreaterOrEqual, QueryBetween] using h

theorem length_ge_two_shape {e : Query} (h : 2 ≤ e.length) :
    ∃ a b t, e = a :: b :: t := by
  match e, h with
  | a :: b :: t, _ => exact ⟨a, b, t, rfl⟩

theorem foldInsert_shape (qs : Queries) (h : ∀ kv ∈ qs, 2 ≤ kv.2.length) :
    ∀ (cols : List String) (parms : List QueryValue) (vals : List String),
      ∃ ps vs, qs.foldlM insertStep (cols, parms, vals) =
        some (cols ++ qs.map (fun kv => trimPrefix kv.1 "="), parms ++ ps, vals ++ vs) := by
  induction qs with
  | nil => intro cols parms vals; exact ⟨[], [], by simp⟩
  | cons kv rest ih =>
    intro cols parms vals
    obtain ⟨col, e⟩ := kv
    obtain ⟨a, b, t, rfl⟩ := length_ge_two_shape (h (col, e) (by simp))
    have hstep : insertStep (cols, parms, vals) (col, a :: b :: t) =
        some (cols ++ [trimPrefix col "="], parms ++ [b],
          vals ++ ["$" ++ toString (parms.length + 1)]) := rfl
    obtain ⟨ps, vs, hfold⟩ :=
      ih (fun kv' h' => h kv' (List.mem_cons_of_mem _ h'))
        (cols ++ [trimPrefix col "="]) (parms ++ [b])
        (vals ++ ["$" ++ toString (parms.length + 1)])
    refine ⟨b :: ps, ("$" ++ toString (parms.length + 1)) :: vs, ?_⟩
    rw [List.foldlM_cons, hstep]
    show List.foldlM insertStep
        (cols ++ [trimPrefix col "="], parms ++ [b],
          vals ++ ["$" ++ toString (parms.length + 1)]) rest = _
    rw [hfold]
    simp

theorem foldUpdate_shape (qs : Queries) (h : ∀ kv ∈ qs, 2 ≤ kv.2.length) :
    ∀ (parms : List QueryValue) (asgs : List String),
      qs.foldlM updateStep (parms, asgs) =
        some (parms ++ setValues qs, asgs ++ setAssignmentsFrom parms.length qs) := by
  induction qs with
  | nil => intro parms asgs; simp [setValues, setAssignmentsFrom]
  | cons kv rest ih =>
    intro parms asgs
    have ihrest := ih (fun kv' h' => h kv' (List.mem_cons_of_mem _ h'))
    obtain ⟨col, e⟩ := kv
    obtain ⟨a, b, t, rfl⟩ := length_ge_two_shape (h (col, e) (by simp))
    rw [List.foldlM_cons]
    cases a with
    | str s =>
      have hstep : updateStep (parms, asgs) (col, QueryValue.str s :: b :: t) =
          some (parms, asgs) := rfl
      rw [hstep]
      show List.foldlM updateStep (parms, asgs) rest = _
      rw [ihrest parms asgs]
      simp [setValues, setAssignmentsFrom]
    | int n =>
      have hstep : updateStep (parms, asgs) (col, QueryValue.int n :: b :: t) =
          some (parms, asgs) := rfl
      rw [hstep]
      show List.foldlM updateStep (parms, asgs) rest = _
      rw [ihrest parms asgs]
      simp [setValues, setAssignmentsFrom]
    | op o =>
      by_cases hset : o.Operator = QuerySet.Operator
      · have hstep : updateStep (parms, asgs) (col, QueryValue.op o :: b :: t) =
            some (parms ++ [b],
              asgs ++ [trimPrefix col "=" ++ " = $" ++ toString (parms.length + 1)]) := by
          simp only [updateStep, asOp]
          rw [if_pos hset]
        rw [hstep]
        show List.foldlM updateStep
            (parms ++ [b],
              asgs ++ [trimPrefix col "=" ++ " = $" ++ toString (parms.length + 1)]) rest = _
        rw [ihrest (parms ++ [b])
          (asgs ++ [trimPrefix col "=" ++ " = $" ++ toString (parms.length + 1)])]
        simp only [setValues, setAssignmentsFrom]
        rw [if_pos hset, if_pos hset]
        simp
      · have hstep : updateStep (parms, asgs) (col, QueryValue.op o :: b :: t) =
            some (parms, asgs) := by
          simp only [updateStep, asOp]
          rw [if_neg hset]
        rw [hstep]
        show List.foldlM updateStep (parms, asgs) rest = _
        rw [ihrest parms asgs]
        simp only [setValues, setAssignmentsFrom]
        rw [if_neg hset, if_neg hset]

theorem whereStep_set_headed {kv : String × Query} (hset : setHeaded kv.2 = true)
    (acc : String × List QueryValue) : whereStep acc kv = some acc := by
  obtain ⟨col, e⟩ := kv
  match e with
  | [] => simp [setHeaded] at hset
  | QueryValue.str s :: rest => simp [setHeaded] at hset
  | QueryValue.int n :: rest => simp [setHeaded] at hset
  | QueryValue.op o :: rest =>
    have hOp : o.Operator = QuerySet.Operator := by simpa [setHeaded] using hset
    have hin : ¬((asOp (QueryValue.op o)).getD ⟨"", 0⟩).Operator = QueryIn.Operator := by
      simp [asOp, hOp, QuerySet, QueryIn]
    have hskip : (QueryValue.op o :: rest).length ≠
          ((asOp (QueryValue.op o)).getD ⟨"", 0⟩).Arity ∨
        ((asOp (QueryValue.op o)).getD ⟨"", 0⟩).Operator = QuerySet.Operator :=
      Or.inr (by simp [asOp, hOp])
    simp only [whereStep]
    rw [if_neg hin, if_pos hskip]

/-- C2 (amended): wherever the Update builder's assignment list or the
Insert builder's column list renders a column name, the stored key has
the `=` assignment sentinel stripped (`strings.TrimPrefix`); and
`WhereClause`, which renders stored keys unstripped, skips every
`SET`-headed entry, so a sentinel key holding a `SET`-headed entry is
never emitted by it. -/
theorem sentinel_stripped_on_render (table : String) (columns : List String)
    (qs : Queries) (h : ∀ kv ∈ qs, 2 ≤ kv.2.length) :
    (∃ ps vs, InsertStatement.Build table columns qs =
        some ("INSERT INTO " ++ table ++ " (" ++
            joinStrings ", " (qs.map (fun kv => trimPrefix kv.1 "=")) ++
            ") VALUES (" ++ joinStrings ", " vs ++ ")", ps)) ∧
    (∀ parms asgs, qs.foldlM updateStep (parms, asgs) =
        some (parms ++ setValues qs, asgs ++ setAssignmentsFrom parms.length qs)) ∧
    qs.whereClause = Queries.whereClause (qs.filter (fun kv => !setHeaded kv.2)) := by
  refine ⟨?_, foldUpdate_shape qs h, ?_⟩
  · obtain ⟨ps, vs, hfold⟩ := foldInsert_shape qs h [] [] []
    refine ⟨ps, vs, ?_⟩
    simp only [InsertStatement.Build, hfold]
    simp
  · have hdrop : ∀ kv ∈ qs, (!setHeaded kv.2) = false →
        ∀ acc : String × List QueryValue, whereStep acc kv = some acc := by
      intro kv hkv hset acc
      exact whereStep_set_headed (by simpa using hset) acc
    simp only [Queries.whereClause]
    rw [foldWhere_filter _ qs hdrop ("", [])]

/-- C2 witness: on the set `Queries{}.Add("age", 18).Add("age",
QuerySet, 25)` — whose assignment entry is stored under `=age` — the
Insert builder's column list holds the stripped keys, the Update
assignment scan renders the stripped key, and `WhereClause` equals the
clause over the non-`SET`-headed entries alone. -/
theorem sentinel_stripped_on_render_witness :
    (∃ ps vs, InsertStatement.Build "person" [] exampleSet =
        some ("INSERT INTO " ++ "person" ++ " (" ++
            joinStrings ", " (exampleSet.map (fun kv => trimPrefix kv.1 "=")) ++
            ") VALUES (" ++ joinStrings ", " vs ++ ")", ps)) ∧
    exampleSet.foldlM updateStep ([], []) =
      some ([] ++ setValues exampleSet,
        [] ++ setAssignmentsFrom ([] : List QueryValue).length exampleSet) ∧
    exampleSet.whereClause =
      Queries.whereClause (exampleSet.filter (fun kv => !setHeaded kv.2)) := by
  have h := sentinel_stripped_on_render "person" [] exampleSet (by decide)
  exact ⟨h.1, h.2.1 [] [], h.2.2⟩
